import Mathlib

/-!
Verification development for the LockFree_Stack_MPMC_Low_Latency repository.

The repository contains several iterative variants of a Treiber (CAS-based
lock-free LIFO) stack:

* `src/LockFreeStack.cpp` — the basic variant: atomic `head`, `push` via a
  release CAS, `pop(T& out)` via an acq_rel CAS returning `bool`, plus an
  explicitly non-thread-safe `push_bulk`.
* `src/unnamed/part_001` (and the identical second half of
  `src/LockFreeStack.cpp`'s companion) — the shutdown-aware variant: an atomic
  `shutdown_flag` observed at the start of `push` and at every retry iteration
  of `push`/`pop`.
* `src/unnamed/part_002` and `src/unnamed/part_003` — the epoch-based
  reclamation variant: a `NodePool` free list, a thread-local
  `deferred_deletion_list`, a global epoch counter advanced by
  `advance_epoch`, reclamation in `reclaim_memory`, and bounded exponential
  backoff (`backoff = min(backoff * 2, 1024)`) in the CAS loops.
  `part_003` is the later iteration: its `NodePool::allocate` re-reads
  `node->next` inside the CAS loop and resets the payload, forward pointer
  and retirement tag of a reused node (the comment in `part_003` explains why
  `part_002`'s version was wrong), so `part_003` is taken as the authority
  where the two differ.

The shallow embedding below models the stack chain reachable from `head` as a
`List` (top of stack = list head).  A successful CAS on `head` is the unique
point where a `push`/`pop` touches shared state, so in the sequential and
schedule-driven models below a CAS attempt against the current chain `cur`
with expected value `e` succeeds exactly when `cur = e`.  Payloads are
specialised to `Nat` (the repository instantiates `T = int` everywhere).
Epoch fields are `int` in C++; they are modelled as unbounded `Int` because
every epoch value reachable by the program grows by single increments from 0,
and the claims under study concern the trigger/compare logic, not 32-bit
wraparound.  The `size_t` operation counter is modelled with its mod-2^64
wraparound made explicit.
-/

/-! ## Model of `src/LockFreeStack.cpp` (the basic variant)

`push` allocates a node, links it in front of the observed head and publishes
it with a CAS; sequentially (no interfering thread) the first CAS succeeds, so
the chain becomes `value :: chain`.

`pop(T& out)` loads `head`; while it is non-null it CASes `head` from the
observed node to its successor; on success it copies `old_head->data` into
`out`, deletes the node and returns `true`; when the observed head is null it
returns `false` without touching `out`.  `PopOut` packages the C++ outcome:
the `bool` return value, the chain after the call, and the value held by the
caller-supplied `out` variable after the call. -/

namespace Simple

/-- Result of `LockFreeStack::pop(T& out)` in `src/LockFreeStack.cpp`:
`ret` is the returned `bool`, `stack` the chain reachable from `head`
after the call, `out` the value of the caller's `out` variable after the
call. -/
structure PopOut where
  ret : Bool
  stack : List Nat
  out : Nat
  deriving Repr, DecidableEq

/-- `LockFreeStack::push` of `src/LockFreeStack.cpp` (lines 32–44), run
without interference: the new node is linked in front of the observed head
and the CAS publishes it. -/
def push (value : Nat) (stack : List Nat) : List Nat :=
  value :: stack

/-- `LockFreeStack::pop(T& out)` of `src/LockFreeStack.cpp` (lines 47–65),
run without interference: null head returns `false` leaving `out` as it was;
otherwise the CAS claims the head node, `out` receives its data and the node
is unlinked. -/
def pop (stack : List Nat) (out : Nat) : PopOut :=
  match stack with
  | [] => ⟨false, [], out⟩
  | v :: rest => ⟨true, rest, v⟩

/-- `LockFreeStack::empty` of `src/LockFreeStack.cpp` (lines 68–70):
a single read of `head` compared with null. -/
def emptyq (stack : List Nat) : Bool :=
  stack.isEmpty

/-- The node-building loop of `push_bulk` (lines 104–111): `first` and
`last` start null; each iteration allocates a node for the next value and
appends it behind `last`.  The model keeps the chain `first → … → last` as
a list; `none` is the state where `first` and `last` are still null (no
iteration has run). -/
def buildChain (values : List Nat) : Option (List Nat) :=
  values.foldl
    (fun acc v =>
      match acc with
      | none => some [v]
      | some chain => some (chain ++ [v]))
    none

/-- `LockFreeStack::push_bulk` of `src/LockFreeStack.cpp` (lines 103–114).
After the loop, `last->next = head.load(...)` splices the old chain behind
`last` and the CAS installs `first` as the new head.  When the loop built
no node, `last` is still null and `last->next` dereferences a null pointer:
the model returns `none` for that undefined behaviour. -/
def push_bulk (values : List Nat) (stack : List Nat) : Option (List Nat) :=
  match buildChain values with
  | none => none
  | some chain => some (chain ++ stack)

/-- Repeated `pop(out)` calls as the consumer loop of `main`
(`src/LockFreeStack.cpp` lines 129–134) makes them: each call reuses the
same `out` variable; the log records each call's returned `bool` and the
value of `out` after the call. -/
def drain : List Nat → Nat → Nat → List (Bool × Nat)
  | _, _, 0 => []
  | s, out, k + 1 =>
    let r := pop s out
    (r.ret, r.out) :: drain r.stack r.out k

end Simple

/-! ## Model of `src/unnamed/part_003` (epoch-based reclamation variant)

`Node` carries the payload `data`, the forward pointer `next` (modelled as an
abstract address: the `id` of the pointee, `none` for `nullptr`), and the
`retirement_epoch` tag (`-1` in the constructor, i.e. not retired).  Chains
(the stack, the pool free list, the deferred list) are modelled as the list
of nodes in chain order, so the `next` field of a node at the head of a chain
points at the `id` of the following node. -/

namespace Epoch

/-- `LockFreeStack::Node` of `src/unnamed/part_003` (lines 24–29), with the
raw `Node*` forward pointer abstracted to the pointee's `id`. -/
structure Node where
  id : Nat
  data : Nat
  next : Option Nat
  retirement_epoch : Int
  deriving Repr, DecidableEq

/-- `constexpr int EPOCH_ADVANCE_INTERVAL = 1'000'000` (line 14). -/
def EPOCH_ADVANCE_INTERVAL : Nat := 1000000

/-- The deferred-list size threshold: the literal `100` in
`deferred_deletion_list.size() > 100` (line 77). -/
def DEFERRED_SIZE_THRESHOLD : Nat := 100

/-- The grace period: `reclaim_memory` reclaims a node exactly when
`retirement_epoch < current_epoch - 1` (line 153), i.e. when the recorded
epoch is older than the current global epoch minus this constant. -/
def grace_period : Int := 1

/-- `2^64`: modulus of the `size_t` thread-local `operation_count`. -/
def U64 : Nat := 2 ^ 64

/-- Address of the first node of a chain (`nullptr` when the chain is
empty): the value a `head`/`free_list` load returns in this model. -/
def headAddr (chain : List Node) : Option Nat :=
  chain.head?.map Node.id

/-- The node constructed by `new Node(val)` (line 28): payload `val`,
forward pointer null, retirement tag `-1`.  `nid` is the fresh address. -/
def newNode (nid : Nat) (val : Nat) : Node :=
  ⟨nid, val, none, -1⟩

/-- `NodePool::allocate` of `src/unnamed/part_003` (lines 38–63), run
without interference so the free-list CAS succeeds on its first attempt:
if the free list is non-empty, its first node is unlinked, its payload is
overwritten with `val`, its forward pointer is reset to null and its
retirement tag to `-1`, and it is returned; otherwise `new Node(val)` is
returned.  The result is `(returned node, new free list, next fresh id)`. -/
def allocate (val : Nat) (free : List Node) (nid : Nat) :
    Node × List Node × Nat :=
  match free with
  | [] => (newNode nid val, [], nid + 1)
  | n :: rest => ({ n with data := val, next := none, retirement_epoch := -1 }, rest, nid)

/-- `NodePool::deallocate` of `src/unnamed/part_003` (lines 65–70):
`node->next` is pointed at the current free-list head and the CAS installs
`node` as the new head. -/
def deallocate (n : Node) (free : List Node) : List Node :=
  { n with next := headAddr free } :: free

/-- `LockFreeStack::reclaim_memory` of `src/unnamed/part_003`
(lines 149–160): walk the calling thread's `deferred_deletion_list` in
order; every node with `retirement_epoch < current_epoch - 1` is handed to
`pool.deallocate` and erased from the list; the others stay.  Returns
`(remaining deferred list, new free list)`. -/
def reclaim_memory (cur : Int) : List Node → List Node → List Node × List Node
  | [], free => ([], free)
  | n :: rest, free =>
    if n.retirement_epoch < cur - 1 then
      reclaim_memory cur rest (deallocate n free)
    else
      let df := reclaim_memory cur rest free
      (n :: df.1, df.2)

/-- The whole sequential state of the `part_003` variant for one thread:
the stack chain, the pool free list, the thread's deferred-deletion list,
the global epoch, the thread-local epoch snapshot and operation counter,
and the next fresh node address. -/
structure State where
  stack : List Node
  free : List Node
  deferred : List Node
  global_epoch : Int
  thread_epoch : Int
  op_count : Nat
  next_id : Nat
  deriving Repr, DecidableEq

/-- The condition of the `if` in `advance_epoch` (line 77), evaluated on
the already-incremented operation count `oc` and the deferred-list length
`dlen`: `operation_count % EPOCH_ADVANCE_INTERVAL == 0 ||
deferred_deletion_list.size() > 100`. -/
def advance_trigger (oc : Nat) (dlen : Nat) : Bool :=
  oc % EPOCH_ADVANCE_INTERVAL == 0 || dlen > DEFERRED_SIZE_THRESHOLD

/-- `LockFreeStack::advance_epoch` of `src/unnamed/part_003` (lines 75–81):
increment the thread's operation counter (a `size_t`, hence mod `2^64`);
when the trigger condition holds, `fetch_add(1)` the global epoch and run
`reclaim_memory` (which then loads the freshly incremented epoch). -/
def advance_epoch (st : State) : State :=
  let oc := (st.op_count + 1) % U64
  if advance_trigger oc st.deferred.length then
    let ge := st.global_epoch + 1
    let df := reclaim_memory ge st.deferred st.free
    { st with op_count := oc, global_epoch := ge, deferred := df.1, free := df.2 }
  else
    { st with op_count := oc }

/-- `LockFreeStack::push` of `src/unnamed/part_003` (lines 85–111), run
without interference so the publishing CAS succeeds on its first attempt:
allocate a node from the pool, point its `next` at the observed head,
publish it, then call `advance_epoch`. -/
def push (value : Nat) (st : State) : State :=
  let a := allocate value st.free st.next_id
  let n := { a.1 with next := headAddr st.stack }
  advance_epoch { st with stack := n :: st.stack, free := a.2.1, next_id := a.2.2 }

/-- `LockFreeStack::pop` of `src/unnamed/part_003` (lines 113–147), run
without interference: refresh `thread_epoch` from the global epoch; if the
head is null return `false` leaving `out` alone; otherwise the CAS claims
the head node, `out` receives its data, the node is tagged with the
thread's epoch snapshot, appended to the deferred list, and `advance_epoch`
runs.  Result: `(returned bool, state after, out after)`. -/
def pop (st : State) (out : Nat) : Bool × State × Nat :=
  let te := st.global_epoch
  let st1 := { st with thread_epoch := te }
  match st1.stack with
  | [] => (false, st1, out)
  | n :: rest =>
    let retired := { n with retirement_epoch := te }
    (true,
     advance_epoch { st1 with stack := rest, deferred := st1.deferred ++ [retired] },
     n.data)

end Epoch

/-- **C1** LIFO order under sequential use: for every `v1, v2, v3` pushed in
that order by a single thread with no concurrent operations, successive pops
return `v3`, then `v2`, then `v1` (each with `true`), and a fourth pop
reports the empty indication (`false`). -/
theorem C1_lifo_order (v1 v2 v3 out0 : Nat) :
    Simple.drain (Simple.push v3 (Simple.push v2 (Simple.push v1 []))) out0 4 =
      [(true, v3), (true, v2), (true, v1), (false, v1)] :=
  rfl

/-- Characterisation of one `reclaim_memory` sweep: the surviving deferred
list is the sub-list of nodes whose retirement epoch is not older than
`cur - grace_period`, and the free list gains exactly (the addresses of) the
nodes whose retirement epoch is older, in reverse encounter order, in front
of the old free list. -/
theorem Epoch.reclaim_memory_spec (cur : Int) (deferred : List Epoch.Node) :
    ∀ free : List Epoch.Node,
      (Epoch.reclaim_memory cur deferred free).1 =
          deferred.filter (fun n => !decide (n.retirement_epoch < cur - Epoch.grace_period)) ∧
        (Epoch.reclaim_memory cur deferred free).2.map Epoch.Node.id =
          ((deferred.filter
              (fun n => decide (n.retirement_epoch < cur - Epoch.grace_period))).map
                Epoch.Node.id).reverse ++ free.map Epoch.Node.id := by
  induction deferred with
  | nil => intro free; simp [Epoch.reclaim_memory]
  | cons n rest ih =>
    intro free
    have hgp : cur - Epoch.grace_period = cur - 1 := by simp [Epoch.grace_period]
    by_cases h : n.retirement_epoch < cur - 1
    · have h' : decide (n.retirement_epoch < cur - Epoch.grace_period) = true := by
        rw [hgp]; exact decide_eq_true h
      constructor
      · simp only [Epoch.reclaim_memory, if_pos h, List.filter_cons, h']
        exact (ih (Epoch.deallocate n free)).1
      · simp only [Epoch.reclaim_memory, if_pos h, List.filter_cons, h']
        rw [(ih (Epoch.deallocate n free)).2]
        simp [Epoch.deallocate]
    · have h' : decide (n.retirement_epoch < cur - Epoch.grace_period) = false := by
        rw [hgp]; exact decide_eq_false h
      constructor
      · simp only [Epoch.reclaim_memory, if_neg h, List.filter_cons, h']
        simp [(ih free).1]
      · simp only [Epoch.reclaim_memory, if_neg h, List.filter_cons, h']
        exact (ih free).2

/-- **C2** Reclamation gate: a `reclaim_memory` sweep of the calling
thread's deferred list keeps exactly the nodes whose retirement epoch is
not older than `current_epoch - grace_period` and hands exactly the older
ones to the node pool (prepended to the free list in reverse encounter
order); consequently a node retired at epoch `E` stays in the deferred list
— is never handed to the pool — as long as the global epoch has not
advanced at least `grace_period` beyond `E`. -/
theorem C2_reclamation_gate (cur : Int) (deferred free : List Epoch.Node) :
    (Epoch.reclaim_memory cur deferred free).1 =
        deferred.filter (fun n => !decide (n.retirement_epoch < cur - Epoch.grace_period)) ∧
    (Epoch.reclaim_memory cur deferred free).2.map Epoch.Node.id =
        ((deferred.filter
            (fun n => decide (n.retirement_epoch < cur - Epoch.grace_period))).map
              Epoch.Node.id).reverse ++ free.map Epoch.Node.id ∧
    ∀ n ∈ deferred, ¬ (n.retirement_epoch + Epoch.grace_period < cur) →
      n ∈ (Epoch.reclaim_memory cur deferred free).1 := by
  obtain ⟨h1, h2⟩ := Epoch.reclaim_memory_spec cur deferred free
  refine ⟨h1, h2, ?_⟩
  intro n hn hrecent
  rw [h1, List.mem_filter]
  refine ⟨hn, ?_⟩
  have : ¬ (n.retirement_epoch < cur - Epoch.grace_period) := by
    simp only [Epoch.grace_period] at hrecent ⊢
    omega
  simp [this]

/-- Closed witness for C2: a sweep at global epoch `2` over a deferred list
holding one node retired at epoch `0` (old enough) and one retired at epoch
`1` (still in its grace period) keeps exactly the second and hands exactly
the first to the pool. -/
theorem C2_reclamation_gate_witness :
    (Epoch.reclaim_memory 2 [⟨5, 50, none, 0⟩, ⟨6, 60, none, 1⟩] []).1 =
        [⟨6, 60, none, 1⟩] ∧
    (Epoch.reclaim_memory 2 [⟨5, 50, none, 0⟩, ⟨6, 60, none, 1⟩] []).2.map Epoch.Node.id =
        [5] ∧
    (⟨6, 60, none, 1⟩ : Epoch.Node) ∈
        (Epoch.reclaim_memory 2 [⟨5, 50, none, 0⟩, ⟨6, 60, none, 1⟩] []).1 := by
  obtain ⟨h1, h2, h3⟩ :=
    C2_reclamation_gate 2 [⟨5, 50, none, 0⟩, ⟨6, 60, none, 1⟩] []
  refine ⟨?_, ?_, ?_⟩
  · rw [h1]; decide
  · rw [h2]; decide
  · exact h3 ⟨6, 60, none, 1⟩ (by decide) (by decide)

/-- **C4** Epoch advance trigger: `advance_epoch` (run at the end of every
push and of every successful pop) increments the global epoch by exactly
one precisely when the freshly incremented thread operation count is a
multiple of `EPOCH_ADVANCE_INTERVAL` or the thread's deferred list is
larger than `DEFERRED_SIZE_THRESHOLD`, and leaves it unchanged otherwise;
the global epoch never decreases; a pop that observes a null head leaves
it unchanged; and the epoch is not advanced on every operation (the very
first operation of a fresh thread state does not advance it). -/
theorem C4_epoch_advance_trigger (st : Epoch.State) (v out : Nat) :
    ((Epoch.advance_epoch st).global_epoch =
        if Epoch.advance_trigger ((st.op_count + 1) % Epoch.U64) st.deferred.length
        then st.global_epoch + 1 else st.global_epoch) ∧
    st.global_epoch ≤ (Epoch.advance_epoch st).global_epoch ∧
    ((Epoch.push v st).global_epoch =
        if Epoch.advance_trigger ((st.op_count + 1) % Epoch.U64) st.deferred.length
        then st.global_epoch + 1 else st.global_epoch) ∧
    (st.stack = [] → (Epoch.pop st out).2.1.global_epoch = st.global_epoch) ∧
    (st.stack ≠ [] →
      (Epoch.pop st out).2.1.global_epoch =
        if Epoch.advance_trigger ((st.op_count + 1) % Epoch.U64) (st.deferred.length + 1)
        then st.global_epoch + 1 else st.global_epoch) ∧
    (Epoch.advance_epoch ⟨[], [], [], 0, 0, 0, 0⟩).global_epoch = 0 := by
  have hadv : ∀ s : Epoch.State, (Epoch.advance_epoch s).global_epoch =
      if Epoch.advance_trigger ((s.op_count + 1) % Epoch.U64) s.deferred.length
      then s.global_epoch + 1 else s.global_epoch := by
    intro s
    by_cases h : Epoch.advance_trigger ((s.op_count + 1) % Epoch.U64) s.deferred.length
    · simp [Epoch.advance_epoch, h]
    · simp [Epoch.advance_epoch, h]
  refine ⟨hadv st, ?_, ?_, ?_, ?_, ?_⟩
  · rw [hadv st]
    by_cases h : Epoch.advance_trigger ((st.op_count + 1) % Epoch.U64) st.deferred.length
    · simp [h]
    · simp [h]
  · rw [Epoch.push, hadv]
  · intro hnil
    simp [Epoch.pop, hnil]
  · intro hne
    match hstk : st.stack with
    | [] => exact absurd hstk hne
    | n :: rest =>
      simp only [Epoch.pop, hstk]
      rw [hadv]
      simp [List.length_append]
  · decide

/-- Closed witness for C4: at a fresh thread state holding one pushed node,
a successful pop does not advance the global epoch (operation count 1 is not
a multiple of the interval and the deferred list is small), and a pop on an
empty stack leaves it unchanged too. -/
theorem C4_epoch_advance_trigger_witness :
    (Epoch.pop ⟨[⟨0, 7, none, -1⟩], [], [], 0, 0, 0, 1⟩ 0).2.1.global_epoch = 0 ∧
    (Epoch.pop ⟨[], [], [], 5, 0, 0, 0⟩ 0).2.1.global_epoch = 5 := by
  constructor
  · have h := (C4_epoch_advance_trigger ⟨[⟨0, 7, none, -1⟩], [], [], 0, 0, 0, 1⟩ 3 0).2.2.2.2.1
      (by decide)
    rw [h]; decide
  · exact (C4_epoch_advance_trigger ⟨[], [], [], 5, 0, 0, 0⟩ 3 0).2.2.2.1 rfl

/-- **C5** Node Pool allocate: when the free list is non-empty, `allocate`
removes its first node, overwrites its payload with the requested value,
resets its forward pointer to null and its retirement tag to the
not-retired value `-1`, and returns it; when the free list is empty it
returns freshly allocated storage initialised with the value (and the free
list stays empty). -/
theorem C5_allocate_resets (val nid : Nat) (free : List Epoch.Node) :
    (∀ n rest, free = n :: rest →
        Epoch.allocate val free nid =
          ({ n with data := val, next := none, retirement_epoch := -1 }, rest, nid)) ∧
    (free = [] →
        Epoch.allocate val free nid = (⟨nid, val, none, -1⟩, [], nid + 1)) := by
  constructor
  · rintro n rest rfl
    rfl
  · rintro rfl
    rfl

/-- Closed witness for C5: allocating from a free list holding one stale
node (old payload `9`, a dangling forward pointer and retirement tag `4`)
returns that node fully reset, and allocating from the empty free list
returns a fresh node. -/
theorem C5_allocate_resets_witness :
    Epoch.allocate 42 [⟨3, 9, some 7, 4⟩] 10 = (⟨3, 42, none, -1⟩, [], 10) ∧
    Epoch.allocate 42 [] 10 = (⟨10, 42, none, -1⟩, [], 11) := by
  constructor
  · exact (C5_allocate_resets 42 10 [⟨3, 9, some 7, 4⟩]).1 ⟨3, 9, some 7, 4⟩ [] rfl
  · exact (C5_allocate_resets 42 10 []).2 rfl

/-! ## Schedule-driven model of the `part_003` CAS loops

The loops of `push`/`pop` in `src/unnamed/part_003` interact with other
threads only through `head`: a CAS attempt against the chain current at that
moment either succeeds (and is the operation's only mutation of shared
state) or fails, after which the thread spins `backoff` yields and doubles
`backoff` up to the `1024` ceiling.  The models below take the interference
as an explicit schedule: `actuals` lists the chain contents current at each
successive CAS attempt, and a CAS whose expected chain equals the current
chain succeeds.  `none` means the schedule ran out before the loop finished
(a model artefact, not a program outcome).  `waits` records the number of
yields performed after each failed CAS, in order. -/

namespace Epoch

/-- Outcome of one `push` invocation of `src/unnamed/part_003`
(lines 85–111) under a given interference schedule: the chain right after
the publishing CAS, the yield counts performed after each failed CAS, and
the final value of the `backoff` variable. -/
structure PushRes where
  stack : List Nat
  waits : List Nat
  backoff : Nat
  deriving Repr, DecidableEq

/-- The CAS loop of `push` (lines 91–109): on success the candidate is
linked in front of the current chain; on failure the loop yields `backoff`
times, sets `backoff = min(backoff * 2, 1024)`, re-points the candidate at
the freshly observed head and retries. -/
def pushGo (v : Nat) (expected : List Nat) (actuals : List (List Nat))
    (backoff : Nat) (waits : List Nat) : Option PushRes :=
  match actuals with
  | [] => none
  | cur :: more =>
    if expected = cur then some ⟨v :: cur, waits, backoff⟩
    else pushGo v cur more (min (backoff * 2) 1024) (waits ++ [backoff])

/-- Outcome of one `pop(T& out)` invocation of `src/unnamed/part_003`
(lines 113–147) under a given interference schedule: the returned `bool`,
the chain right after the call, the caller's `out` variable after the call,
the last observed value of `old_head` (the null observation on the empty
return, the claimed node on success), the yield counts, and the final
`backoff` value. -/
structure PopRes where
  ret : Bool
  stack : List Nat
  out : Nat
  obs : List Nat
  waits : List Nat
  backoff : Nat
  deriving Repr, DecidableEq

/-- The CAS loop of `pop` (lines 122–146): the loop exits with `false` as
soon as the observed `old_head` is null; otherwise it reads the successor,
attempts the CAS, and on failure yields `backoff` times, doubles `backoff`
up to `1024`, and retries from the freshly observed head. -/
def popGo (out : Nat) (expected : List Nat) (actuals : List (List Nat))
    (backoff : Nat) (waits : List Nat) : Option PopRes :=
  match expected with
  | [] => some ⟨false, [], out, [], waits, backoff⟩
  | v :: rest =>
    match actuals with
    | [] => none
    | cur :: more =>
      if v :: rest = cur then some ⟨true, rest, v, v :: rest, waits, backoff⟩
      else popGo out cur more (min (backoff * 2) 1024) (waits ++ [backoff])

/-- Number of failed CAS attempts a `push` makes before succeeding, for a
given initially observed chain and schedule of current chains. -/
def countFails (expected : List Nat) : List (List Nat) → Nat
  | [] => 0
  | cur :: more => if expected = cur then 0 else countFails cur more + 1

/-- Number of failed CAS attempts a `pop` makes before exiting (by a null
observation or a successful CAS). -/
def countFailsPop : List Nat → List (List Nat) → Nat
  | [], _ => 0
  | _ :: _, [] => 0
  | v :: rest, cur :: more =>
    if v :: rest = cur then 0 else countFailsPop cur more + 1

end Epoch

/-- One doubling-with-ceiling step: starting from `min(2^j, 1024)`,
`min(backoff * 2, 1024)` is `min(2^(j+1), 1024)`. -/
theorem Epoch.backoff_double_step (j : Nat) :
    min (min (2 ^ j) 1024 * 2) 1024 = min (2 ^ (j + 1)) 1024 := by
  have hp : 2 ^ (j + 1) = 2 ^ j * 2 := pow_succ 2 j
  omega

/-- Waits performed by the `push` CAS loop: called with `backoff =
min(2^j, 1024)`, after `k` further failures the loop has appended the
waits `min(2^j,1024), …, min(2^(j+k-1),1024)` and holds `backoff =
min(2^(j+k), 1024)`. -/
theorem Epoch.pushGo_waits (v : Nat) (actuals : List (List Nat)) :
    ∀ (expected : List Nat) (j : Nat) (waits : List Nat) (r : Epoch.PushRes),
      Epoch.pushGo v expected actuals (min (2 ^ j) 1024) waits = some r →
      r.waits = waits ++
          (List.range (Epoch.countFails expected actuals)).map
            (fun i => min (2 ^ (j + i)) 1024) ∧
        r.backoff = min (2 ^ (j + Epoch.countFails expected actuals)) 1024 := by
  induction actuals with
  | nil =>
    intro e j w r h
    exact absurd h (by simp [Epoch.pushGo])
  | cons cur more ih =>
    intro e j w r h
    by_cases he : e = cur
    · rw [Epoch.pushGo, if_pos he] at h
      cases h
      rw [Epoch.countFails, if_pos he]
      exact ⟨by simp, by simp⟩
    · rw [Epoch.pushGo, if_neg he, Epoch.backoff_double_step] at h
      obtain ⟨h1, h2⟩ := ih cur (j + 1) (w ++ [min (2 ^ j) 1024]) r h
      constructor
      · rw [h1]
        rw [Epoch.countFails, if_neg he]
        rw [List.range_succ_eq_map]
        simp only [List.map_cons, List.map_map, List.append_assoc,
          List.singleton_append, Nat.add_zero]
        congr 2
        apply List.map_congr_left
        intro i _
        have hix : j + 1 + i = j + (i + 1) := by omega
        simp [Function.comp, hix, Nat.succ_eq_add_one]
      · rw [h2, Epoch.countFails, if_neg he]
        have hix : j + 1 + Epoch.countFails cur more =
            j + (Epoch.countFails cur more + 1) := by omega
        rw [hix]

/-- Waits performed by the `pop` CAS loop, and its exit shape: with
`backoff = min(2^j, 1024)`, after `k` further failures the waits are
`min(2^j,1024), …, min(2^(j+k-1),1024)` and `backoff = min(2^(j+k),1024)`;
moreover the loop returns `false` exactly when the last observed head is
null, in which case the chain is the empty chain and the caller's `out`
variable is untouched. -/
theorem Epoch.popGo_spec (out : Nat) (actuals : List (List Nat)) :
    ∀ (expected : List Nat) (j : Nat) (waits : List Nat) (r : Epoch.PopRes),
      Epoch.popGo out expected actuals (min (2 ^ j) 1024) waits = some r →
      (r.waits = waits ++
          (List.range (Epoch.countFailsPop expected actuals)).map
            (fun i => min (2 ^ (j + i)) 1024)) ∧
        r.backoff = min (2 ^ (j + Epoch.countFailsPop expected actuals)) 1024 ∧
        (r.ret = false ↔ r.obs = []) ∧
        (r.ret = false → r.stack = [] ∧ r.out = out) := by
  induction actuals with
  | nil =>
    intro e j w r h
    match e with
    | [] =>
      rw [Epoch.popGo] at h
      cases h
      simp [Epoch.countFailsPop]
    | v :: rest =>
      exact absurd h (by simp [Epoch.popGo])
  | cons cur more ih =>
    intro e j w r h
    match e with
    | [] =>
      rw [Epoch.popGo] at h
      cases h
      simp [Epoch.countFailsPop]
    | v :: rest =>
      by_cases he : v :: rest = cur
      · rw [Epoch.popGo, if_pos he] at h
        cases h
        rw [Epoch.countFailsPop, if_pos he]
        exact ⟨by simp, by simp, by simp, by simp⟩
      · rw [Epoch.popGo, if_neg he, Epoch.backoff_double_step] at h
        obtain ⟨h1, h2, h3, h4⟩ := ih cur (j + 1) (w ++ [min (2 ^ j) 1024]) r h
        refine ⟨?_, ?_, h3, h4⟩
        · rw [h1]
          rw [Epoch.countFailsPop, if_neg he]
          rw [List.range_succ_eq_map]
          simp only [List.map_cons, List.map_map, List.append_assoc,
            List.singleton_append, Nat.add_zero]
          congr 2
          apply List.map_congr_left
          intro i _
          have hix : j + 1 + i = j + (i + 1) := by omega
          simp [Function.comp, hix, Nat.succ_eq_add_one]
        · rw [h2, Epoch.countFailsPop, if_neg he]
          have hix : j + 1 + Epoch.countFailsPop cur more =
              j + (Epoch.countFailsPop cur more + 1) := by omega
          rw [hix]

/-- **C7** Contention backoff: within a single `push` or `pop` invocation
of the `part_003` variant, the spin/yield count starts at the minimum `1`,
doubles after each consecutive failed CAS and is capped at `1024`: after
`k` consecutive failures the `backoff` variable holds `min(2^k, 1024)`,
the waits actually performed are `min(2^0,1024), …, min(2^(k-1),1024)`,
and no wait ever exceeds `1024`.  A fresh invocation starts again at `1`
(the models are entered with `backoff = 1`, as in lines 88 and 122). -/
theorem C7_backoff_doubling (v out : Nat) (expected : List Nat)
    (actuals : List (List Nat)) :
    (∀ r, Epoch.pushGo v expected actuals 1 [] = some r →
        r.waits = (List.range (Epoch.countFails expected actuals)).map
            (fun i => min (2 ^ i) 1024) ∧
          r.backoff = min (2 ^ Epoch.countFails expected actuals) 1024 ∧
          ∀ w ∈ r.waits, w ≤ 1024) ∧
    (∀ r, Epoch.popGo out expected actuals 1 [] = some r →
        r.waits = (List.range (Epoch.countFailsPop expected actuals)).map
            (fun i => min (2 ^ i) 1024) ∧
          r.backoff = min (2 ^ Epoch.countFailsPop expected actuals) 1024 ∧
          ∀ w ∈ r.waits, w ≤ 1024) := by
  have hone : (1 : Nat) = min (2 ^ 0) 1024 := by decide
  constructor
  · intro r hr
    rw [hone] at hr
    obtain ⟨hw, hb⟩ := Epoch.pushGo_waits v actuals expected 0 [] r hr
    refine ⟨by simpa using hw, by simpa using hb, ?_⟩
    intro w hwmem
    rw [hw] at hwmem
    simp only [List.nil_append, List.mem_map, List.mem_range] at hwmem
    obtain ⟨i, _, rfl⟩ := hwmem
    exact min_le_right _ _
  · intro r hr
    rw [hone] at hr
    obtain ⟨hw, hb, _, _⟩ := Epoch.popGo_spec out actuals expected 0 [] r hr
    refine ⟨by simpa using hw, by simpa using hb, ?_⟩
    intro w hwmem
    rw [hw] at hwmem
    simp only [List.nil_append, List.mem_map, List.mem_range] at hwmem
    obtain ⟨i, _, rfl⟩ := hwmem
    exact min_le_right _ _

/-- Closed witness for C7: a `push` that fails its CAS twice (the chain
moves from `[1]` to `[2]` under it) waits `1` then `2` yields and ends with
`backoff = 4 = min(2^2, 1024)`. -/
theorem C7_backoff_doubling_witness :
    Epoch.pushGo 5 [] [[1], [2], [2]] 1 [] = some ⟨[5, 2], [1, 2], 4⟩ ∧
    [1, 2] = (List.range (Epoch.countFails [] [[1], [2], [2]])).map
        (fun i => min (2 ^ i) 1024) ∧
    (4 : Nat) = min (2 ^ Epoch.countFails [] [[1], [2], [2]]) 1024 := by
  have h := (C7_backoff_doubling 5 0 [] [[1], [2], [2]]).1 ⟨[5, 2], [1, 2], 4⟩
    (by decide)
  exact ⟨by decide, h.1, h.2.1⟩

/-- **C3** `pop` returns the empty indication exactly when the head is
observed as null: in the `part_003` CAS loop the `false` return happens
precisely on a null `old_head` observation, and in that case the chain at
exit is the empty chain and the caller's `out` variable is untouched; a
pop entered on a null head performs no CAS at all; a pop of the full
sequential `part_003` state with an empty stack returns `false` and leaves
the stack, free list, deferred list, global epoch and operation count
unchanged (so repeated pops on the empty structure are all `false` no-ops);
the basic variant behaves the same way. -/
theorem C3_pop_empty_indication (out : Nat) (expected : List Nat)
    (actuals : List (List Nat)) (st : Epoch.State) :
    (∀ r, Epoch.popGo out expected actuals 1 [] = some r →
        (r.ret = false ↔ r.obs = []) ∧ (r.ret = false → r.stack = [] ∧ r.out = out)) ∧
    Epoch.popGo out [] actuals 1 [] = some ⟨false, [], out, [], [], 1⟩ ∧
    (st.stack = [] →
        (Epoch.pop st out).1 = false ∧
        (Epoch.pop st out).2.1.stack = [] ∧
        (Epoch.pop st out).2.1.free = st.free ∧
        (Epoch.pop st out).2.1.deferred = st.deferred ∧
        (Epoch.pop st out).2.1.global_epoch = st.global_epoch ∧
        (Epoch.pop st out).2.1.op_count = st.op_count ∧
        (Epoch.pop st out).2.2 = out) ∧
    Simple.pop [] out = ⟨false, [], out⟩ := by
  have hone : (1 : Nat) = min (2 ^ 0) 1024 := by decide
  refine ⟨?_, ?_, ?_, rfl⟩
  · intro r hr
    rw [hone] at hr
    obtain ⟨_, _, h3, h4⟩ := Epoch.popGo_spec out actuals expected 0 [] r hr
    exact ⟨h3, h4⟩
  · rw [Epoch.popGo]
  · intro hnil
    simp [Epoch.pop, hnil]

/-- Closed witness for C3: popping the empty `part_003` structure returns
`false`, leaves the (empty) stack, the global epoch and the deferred list
unchanged and does not touch `out`; the loop model agrees on a singleton
chain claimed on the first attempt (`true` with a non-null observation). -/
theorem C3_pop_empty_indication_witness :
    (Epoch.pop ⟨[], [⟨1, 2, none, -1⟩], [], 3, 0, 5, 7⟩ 9).1 = false ∧
    (Epoch.pop ⟨[], [⟨1, 2, none, -1⟩], [], 3, 0, 5, 7⟩ 9).2.1.global_epoch = 3 ∧
    (Epoch.pop ⟨[], [⟨1, 2, none, -1⟩], [], 3, 0, 5, 7⟩ 9).2.2 = 9 ∧
    (true = false ↔ ([4] : List Nat) = []) := by
  have h := (C3_pop_empty_indication 9 [4] [[4]]
    ⟨[], [⟨1, 2, none, -1⟩], [], 3, 0, 5, 7⟩).2.2.1 rfl
  have hloop := (C3_pop_empty_indication 9 [4] [[4]]
    ⟨[], [⟨1, 2, none, -1⟩], [], 3, 0, 5, 7⟩).1 ⟨true, [], 4, [4], [], 1⟩ (by decide)
  exact ⟨h.1, h.2.2.2.2.1, h.2.2.2.2.2.2, hloop.1⟩

/-- **C10** `pop`'s out-parameter frame: whenever a `pop(out)` call returns
`false`, the caller-supplied `out` variable is left exactly as it was —
in the basic variant, in the `part_003` CAS loop under any interference
schedule, and in the full sequential `part_003` state. -/
theorem C10_pop_out_frame (s : List Nat) (out : Nat) (expected : List Nat)
    (actuals : List (List Nat)) (st : Epoch.State) :
    ((Simple.pop s out).ret = false → (Simple.pop s out).out = out) ∧
    (∀ r, Epoch.popGo out expected actuals 1 [] = some r →
        r.ret = false → r.out = out) ∧
    ((Epoch.pop st out).1 = false → (Epoch.pop st out).2.2 = out) := by
  have hone : (1 : Nat) = min (2 ^ 0) 1024 := by decide
  refine ⟨?_, ?_, ?_⟩
  · cases s <;> simp [Simple.pop]
  · intro r hr hfalse
    rw [hone] at hr
    obtain ⟨_, _, _, h4⟩ := Epoch.popGo_spec out actuals expected 0 [] r hr
    exact (h4 hfalse).2
  · match hs : st.stack with
    | [] => intro _; simp [Epoch.pop, hs]
    | n :: rest => simp [Epoch.pop, hs]

/-- Closed witness for C10: a failed pop of the basic variant and a failed
pop of the `part_003` loop both leave `out = 9`. -/
theorem C10_pop_out_frame_witness :
    (Simple.pop [] 9).out = 9 ∧
    ((⟨false, [], 9, [], [], 1⟩ : Epoch.PopRes).out = 9) ∧
    (Epoch.pop ⟨[], [], [], 0, 0, 0, 0⟩ 9).2.2 = 9 := by
  have h := C10_pop_out_frame [] 9 [] [] ⟨[], [], [], 0, 0, 0, 0⟩
  exact ⟨h.1 rfl, h.2.1 ⟨false, [], 9, [], [], 1⟩ rfl rfl, h.2.2 rfl⟩

/-- The `push_bulk` loop, once it has created a first node, appends the
remaining values behind it in order. -/
theorem Simple.buildChain_from_some (l : List Nat) :
    ∀ chain : List Nat,
      List.foldl
        (fun acc v =>
          match acc with
          | none => some [v]
          | some c => some (c ++ [v]))
        (some chain) l = some (chain ++ l) := by
  induction l with
  | nil => intro chain; simp
  | cons v rest ih =>
    intro chain
    simp only [List.foldl_cons]
    rw [ih (chain ++ [v])]
    simp

/-- The chain built by the `push_bulk` loop is null exactly for an empty
input vector, and otherwise holds the values in order. -/
theorem Simple.buildChain_eq (values : List Nat) :
    Simple.buildChain values = match values with
      | [] => none
      | _ :: _ => some values := by
  match values with
  | [] => rfl
  | v :: rest =>
    show List.foldl _ (some [v]) rest = _
    rw [Simple.buildChain_from_some rest [v]]
    simp

/-- **C9** `push_bulk` requires a non-empty input: the null-pointer
dereference in its splice step (`last->next` with `last == nullptr`) is
reached exactly when the given vector of values is empty — the model
returns `none` (undefined behaviour) for the empty sequence instead of
being a no-op — and for every non-empty sequence the operation is safe and
splices the values, in order, in front of the old chain. -/
theorem C9_push_bulk_nonempty_precondition (values stack : List Nat) :
    (Simple.push_bulk values stack = none ↔ values = []) ∧
    (values ≠ [] → Simple.push_bulk values stack = some (values ++ stack)) := by
  rw [Simple.push_bulk, Simple.buildChain_eq]
  match values with
  | [] => simp
  | v :: rest => simp

/-- Closed witness for C9: `push_bulk` of `[]` onto the chain `[7]`
dereferences null (`none`), while `push_bulk` of `[1, 2]` splices safely. -/
theorem C9_push_bulk_nonempty_precondition_witness :
    Simple.push_bulk [] [7] = none ∧
    Simple.push_bulk [1, 2] [7] = some [1, 2, 7] := by
  refine ⟨(C9_push_bulk_nonempty_precondition [] [7]).1.mpr rfl, ?_⟩
  have h := (C9_push_bulk_nonempty_precondition [1, 2] [7]).2 (by decide)
  simpa using h

/-! ## Model of `src/unnamed/part_001` (shutdown-aware variant)

`push` checks `shutdown_flag` before allocating; inside the CAS retry loop
it re-checks the flag after every failed CAS and, when it is observed set,
deletes the candidate node and returns without publishing.  `pop` checks
the flag at the start of every loop iteration (before the CAS) and returns
`nullopt` when it is set.  The schedules below supply, per iteration, the
chain current at the CAS attempt and the value the shutdown-flag load
returns. -/

namespace Shut

/-- Outcome of one `push` of `src/unnamed/part_001` (lines 48–68):
the chain as of the call's last step, and what happened to the candidate
node: whether `new Node(value)` ran, whether `delete new_node` ran,
whether the publishing CAS succeeded. -/
structure PushRes where
  stack : List Nat
  allocated : Bool
  freed : Bool
  published : Bool
  deriving Repr, DecidableEq

/-- The CAS retry loop of `push` (lines 56–67): a successful CAS publishes
the candidate; after a failed CAS the shutdown flag is loaded (the `Bool`
in the schedule entry) and, if set, the candidate is deleted and the call
returns with the chain untouched.  Schedule entries carry the chain
current at each CAS attempt and the flag value read after that attempt
fails. -/
def pushGo (v : Nat) (expected : List Nat) (sched : List (List Nat × Bool)) :
    Option PushRes :=
  match sched with
  | [] => none
  | (cur, sd) :: more =>
    if expected = cur then some ⟨v :: cur, true, false, true⟩
    else if sd then some ⟨cur, true, true, false⟩
    else pushGo v cur more

/-- `push` of `src/unnamed/part_001` (lines 48–68): when the shutdown flag
is already set on entry (`sd0`), the call returns before allocating
anything; otherwise the candidate is allocated, pointed at the loaded head
`load`, and the CAS loop runs. -/
def push (v : Nat) (sd0 : Bool) (load : List Nat)
    (sched : List (List Nat × Bool)) : Option PushRes :=
  if sd0 then some ⟨load, false, false, false⟩
  else pushGo v load sched

/-- Outcome of one `pop` of `src/unnamed/part_001` (lines 70–93): the
returned `optional<T>`, the chain as of the call's last step, and whether
the call unlinked a node from the chain. -/
structure PopRes where
  ret : Option Nat
  stack : List Nat
  removed : Bool
  deriving Repr, DecidableEq

/-- The loop of `pop` (lines 73–91): while the observed `old_head` is
non-null, the shutdown flag is loaded first (the `Bool` in the schedule
entry) and, if set, the call returns `nullopt` at once; otherwise the CAS
claims the node on success, and on failure the freshly observed head is
retried.  A null observation returns `nullopt`. -/
def popGo (expected : List Nat) (sched : List (Bool × List Nat)) :
    Option PopRes :=
  match expected with
  | [] => some ⟨none, [], false⟩
  | v :: rest =>
    match sched with
    | [] => none
    | (sd, cur) :: more =>
      if sd then some ⟨none, cur, false⟩
      else if v :: rest = cur then some ⟨some v, rest, true⟩
      else popGo cur more

/-- In the `push` CAS loop, an unpublished exit only happens on a shutdown
observation, with the candidate node deleted and the chain exactly as it
was at that moment. -/
theorem pushGo_no_leak (v : Nat) (sched : List (List Nat × Bool)) :
    ∀ (expected : List Nat) (r : PushRes),
      pushGo v expected sched = some r →
      r.allocated = true ∧
        (r.published = true → r.freed = false ∧ r.stack = v :: r.stack.tail) ∧
        (r.published = false → r.freed = true) := by
  induction sched with
  | nil => intro e r h; exact absurd h (by simp [pushGo])
  | cons entry more ih =>
    intro e r h
    rw [pushGo] at h
    by_cases he : e = entry.1
    · rw [if_pos he] at h
      cases h
      simp
    · rw [if_neg he] at h
      by_cases hsd : entry.2 = true
      · rw [if_pos hsd] at h
        cases h
        simp
      · rw [if_neg hsd] at h
        exact ih entry.1 r h

/-- In the `pop` loop, every `nullopt` return (whether from a null head or
a shutdown observation) removes no node from the chain. -/
theorem popGo_none_removes_nothing (sched : List (Bool × List Nat)) :
    ∀ (expected : List Nat) (r : PopRes),
      popGo expected sched = some r →
      r.ret = none → r.removed = false := by
  induction sched with
  | nil =>
    intro e r h
    match e with
    | [] => rw [popGo] at h; cases h; simp
    | v :: rest => exact absurd h (by simp [popGo])
  | cons entry more ih =>
    intro e r h
    match e with
    | [] => rw [popGo] at h; cases h; simp
    | v :: rest =>
      rw [popGo] at h
      by_cases hsd : entry.1 = true
      · rw [if_pos hsd] at h
        cases h
        simp
      · rw [if_neg hsd] at h
        by_cases he : v :: rest = entry.2
        · rw [if_pos he] at h
          cases h
          simp
        · rw [if_neg he] at h
          exact ih entry.2 r h

end Shut

/-- **C6** Shutdown-in-progress handling in `src/unnamed/part_001`: a push
that observes the shutdown flag on entry returns before allocating and
leaves the chain untouched; a push that observes it after a failed CAS
deletes its candidate node (no leak) and returns without publishing; in
general every terminating push either publishes or has freed its candidate;
and a pop that returns the empty indication — in particular one that
observed the shutdown flag — removes no node. -/
theorem C6_shutdown_handling (v : Nat) (load cur expected : List Nat)
    (sched : List (List Nat × Bool)) (psched : List (Bool × List Nat)) :
    Shut.push v true load sched = some ⟨load, false, false, false⟩ ∧
    (∀ r, Shut.push v false load sched = some r →
        r.allocated = true ∧ (r.published = false → r.freed = true)) ∧
    (∀ sd more, expected ≠ cur → sd = true →
        Shut.pushGo v expected ((cur, sd) :: more) =
          some ⟨cur, true, true, false⟩) ∧
    (∀ r, Shut.popGo expected psched = some r → r.ret = none →
        r.removed = false) ∧
    (∀ sd more w rest, expected = w :: rest → sd = true →
        Shut.popGo expected ((sd, cur) :: more) = some ⟨none, cur, false⟩) := by
  refine ⟨?_, ?_, ?_, ?_, ?_⟩
  · rw [Shut.push, if_pos rfl]
  · intro r h
    rw [Shut.push, if_neg (by simp)] at h
    obtain ⟨h1, _, h3⟩ := Shut.pushGo_no_leak v sched load r h
    exact ⟨h1, h3⟩
  · intro sd more hne hsd
    subst hsd
    rw [Shut.pushGo, if_neg hne, if_pos rfl]
  · intro r h
    exact Shut.popGo_none_removes_nothing psched expected r h
  · intro sd more w rest hexp hsd
    subst hsd hexp
    rw [Shut.popGo, if_pos rfl]

/-- Closed witness for C6: a push entered after shutdown touches nothing; a
push whose first CAS fails and then sees shutdown frees its candidate
without publishing; a pop that sees shutdown returns the empty indication
without removing the (non-null) head. -/
theorem C6_shutdown_handling_witness :
    Shut.push 5 true [9] [] = some ⟨[9], false, false, false⟩ ∧
    Shut.pushGo 5 [] [([1], true)] = some ⟨[1], true, true, false⟩ ∧
    Shut.popGo [4] [(true, [4])] = some ⟨none, [4], false⟩ := by
  have h := C6_shutdown_handling 5 [9] [1] [] [] []
  have h2 := C6_shutdown_handling 5 [9] [4] [4] [] []
  exact ⟨h.1, h.2.2.1 true [] (by decide) rfl,
    h2.2.2.2.2 true [] 4 [] rfl rfl⟩

/-! ## Interleaved executions of the `part_003` stack (conservation)

The only access a `push`/`pop` of `src/unnamed/part_003` makes to shared
data is through the atomic `head`: a failed CAS changes no shared state,
and a successful CAS performs the operation's entire effect (this is the
operation's linearization point).  An interleaved execution of P producers
and C consumers is therefore modelled as a sequence of atomic events, each
being some thread's successful CAS: `Act.push i` is producer `i`
publishing its next value, `Act.pop` is some consumer's claiming CAS.  An
event whose precondition fails (producer out of values, empty stack — the
consumer's null-head observation) changes nothing, exactly like a failed
CAS attempt or an empty-returning pop. -/

namespace Conc

/-- Shared-plus-thread-local state of an interleaved run: the values each
producer still has to push, the stack chain, and the combined log of all
consumers' successfully popped values. -/
structure Config where
  pending : List (List Nat)
  stack : List Nat
  popped : List Nat
  deriving Repr, DecidableEq

/-- An atomic event: producer `i`'s successful publishing CAS, or a
consumer's successful claiming CAS / empty observation. -/
inductive Act where
  | push (i : Nat)
  | pop
  deriving Repr, DecidableEq

/-- Remove the next value of producer `i` from the pending lists;
`none` when producer `i` does not exist or is out of values. -/
def pushAt : List (List Nat) → Nat → Option (Nat × List (List Nat))
  | [], _ => none
  | l :: ls, 0 =>
    match l with
    | [] => none
    | v :: rest => some (v, rest :: ls)
  | l :: ls, i + 1 =>
    (pushAt ls i).map (fun p => (p.1, l :: p.2))

/-- One atomic event: a producer's successful push CAS links its next
value in front of the chain (`Epoch.push`'s only shared-state effect); a
consumer's successful pop CAS unlinks the head node and logs its value;
events whose precondition fails leave the state unchanged. -/
def step (c : Config) (a : Act) : Config :=
  match a with
  | .push i =>
    match pushAt c.pending i with
    | some p => ⟨p.2, p.1 :: c.stack, c.popped⟩
    | none => c
  | .pop =>
    match c.stack with
    | v :: s => ⟨c.pending, s, v :: c.popped⟩
    | [] => c

/-- Run a whole schedule of atomic events. -/
def run (c : Config) (acts : List Act) : Config :=
  acts.foldl step c

/-- All values of a list of per-producer lists, concatenated. -/
def joinAll : List (List Nat) → List Nat
  | [] => []
  | l :: ls => l ++ joinAll ls

/-- The conserved quantity: the multiset of all values still to be pushed,
on the stack, or already popped. -/
def content (c : Config) : Multiset Nat :=
  (joinAll c.pending : Multiset Nat) + (c.stack : Multiset Nat) +
    (c.popped : Multiset Nat)

/-- Removing producer `i`'s next value removes exactly one copy of it from
the combined pending values. -/
theorem pushAt_content :
    ∀ (p : List (List Nat)) (i : Nat) (v : Nat) (p2 : List (List Nat)),
      pushAt p i = some (v, p2) →
      (joinAll p : Multiset Nat) = v ::ₘ (joinAll p2 : Multiset Nat) := by
  intro p
  induction p with
  | nil => intro i v p2 h; exact absurd h (by simp [pushAt])
  | cons l ls ih =>
    intro i v p2 h
    match i with
    | 0 =>
      match l with
      | [] => exact absurd h (by simp [pushAt])
      | w :: rest =>
        rw [pushAt] at h
        injection h with h
        injection h with h1 h2
        subst h1 h2
        simp [joinAll, ← Multiset.cons_coe]
    | i + 1 =>
      rw [pushAt] at h
      match hp : pushAt ls i with
      | none => rw [hp] at h; exact absurd h (by simp)
      | some q =>
        rw [hp] at h
        injection h with h
        injection h with h1 h2
        subst h1 h2
        have hih := ih i q.1 q.2 hp
        show ((l ++ joinAll ls : List Nat) : Multiset Nat) =
          q.1 ::ₘ ((l ++ joinAll q.2 : List Nat) : Multiset Nat)
        rw [← Multiset.coe_add, ← Multiset.coe_add, hih,
          ← Multiset.singleton_add, ← Multiset.singleton_add]
        abel

/-- Every atomic event conserves the combined multiset of values. -/
theorem step_content (c : Config) (a : Act) : content (step c a) = content c := by
  match a with
  | .push i =>
    match hp : pushAt c.pending i with
    | none => simp [step, hp]
    | some q =>
      have hq := pushAt_content c.pending i q.1 q.2 hp
      simp only [step, hp, content]
      rw [hq, ← Multiset.cons_coe, ← Multiset.singleton_add,
        ← Multiset.singleton_add]
      abel
  | .pop =>
    match hs : c.stack with
    | [] => simp [step, hs]
    | v :: s =>
      simp only [step, hs, content]
      rw [← Multiset.cons_coe, ← Multiset.cons_coe,
        ← Multiset.singleton_add, ← Multiset.singleton_add]
      abel

/-- A whole interleaved run conserves the combined multiset of values. -/
theorem run_content (acts : List Act) :
    ∀ c : Config, content (run c acts) = content c := by
  induction acts with
  | nil => intro c; rfl
  | cons a rest ih =>
    intro c
    show content (run (step c a) rest) = content c
    rw [ih (step c a), step_content]

/-- Exhausted producers contribute no values. -/
theorem joinAll_eq_nil (p : List (List Nat)) (h : ∀ l ∈ p, l = []) :
    joinAll p = [] := by
  induction p with
  | nil => rfl
  | cons l ls ih =>
    rw [joinAll, h l (by simp), ih fun m hm => h m (by simp [hm])]
    rfl

/-- With every producer holding `N` values, the combined values number
`(number of producers) * N`. -/
theorem joinAll_length (N : Nat) :
    ∀ p : List (List Nat), (∀ l ∈ p, l.length = N) →
      (joinAll p).length = p.length * N := by
  intro p
  induction p with
  | nil => intro _; simp [joinAll]
  | cons l ls ih =>
    intro h
    rw [joinAll, List.length_append, h l (by simp),
      ih fun m hm => h m (by simp [hm]), List.length_cons]
    ring

end Conc

/-- **C8** Conservation under concurrency: in every interleaved execution
(sequence of successful-CAS events, the operations' linearization points)
in which `P` producers each push `N` tagged values and consumers pop until
exhaustion (at the end all producers are done and the stack is empty), the
total number of successful pops is exactly `P * N` and the multiset of
popped tags equals the multiset of pushed tags — no value is lost and none
is duplicated. -/
theorem C8_conservation (ls : List (List Nat)) (acts : List Conc.Act)
    (P N : Nat) (hP : ls.length = P) (hN : ∀ l ∈ ls, l.length = N)
    (hpend : ∀ l ∈ (Conc.run ⟨ls, [], []⟩ acts).pending, l = [])
    (hstk : (Conc.run ⟨ls, [], []⟩ acts).stack = []) :
    (Conc.run ⟨ls, [], []⟩ acts).popped.length = P * N ∧
    ((Conc.run ⟨ls, [], []⟩ acts).popped : Multiset Nat) =
      (Conc.joinAll ls : Multiset Nat) := by
  have hc := Conc.run_content acts ⟨ls, [], []⟩
  rw [Conc.content, Conc.content] at hc
  rw [Conc.joinAll_eq_nil _ hpend, hstk] at hc
  simp only [Multiset.coe_nil, add_zero, zero_add] at hc
  have hmul : ((Conc.run ⟨ls, [], []⟩ acts).popped : Multiset Nat) =
      (Conc.joinAll ls : Multiset Nat) := by
    simpa using hc
  refine ⟨?_, hmul⟩
  have hcard := congrArg Multiset.card hmul
  rw [Multiset.coe_card, Multiset.coe_card] at hcard
  rw [hcard, Conc.joinAll_length N ls hN, hP]

/-- Closed witness for C8: two producers with one tagged value each, a
schedule interleaving their pushes with two consumer pops; exactly `2 * 1`
pops happen and the popped tags `{1, 2}` match the pushed tags. -/
theorem C8_conservation_witness :
    (Conc.run ⟨[[1], [2]], [], []⟩
        [Conc.Act.push 0, Conc.Act.pop, Conc.Act.push 1, Conc.Act.pop]).popped.length =
      2 * 1 ∧
    ((Conc.run ⟨[[1], [2]], [], []⟩
        [Conc.Act.push 0, Conc.Act.pop, Conc.Act.push 1, Conc.Act.pop]).popped :
          Multiset Nat) =
      (Conc.joinAll [[1], [2]] : Multiset Nat) :=
  C8_conservation [[1], [2]]
    [Conc.Act.push 0, Conc.Act.pop, Conc.Act.push 1, Conc.Act.pop]
    2 1 (by decide) (by decide) (by decide) (by decide)
